import Mathlib

/-!
# Verification of the xboinc binary codec and job-submission queue

This development embeds the core of the xboinc package
(`xboinc/simulation_io/input.py`, `xboinc/simulation_io/output.py`,
`xboinc/submit.py`) as executable Lean definitions and proves the
spec-level properties about them: the binary round-trip law, the
version gate, the checkpoint/resume determinism contract, the element
range invariant of `XbInput.__init__`, buffer shrinking, state-block
layout, and the behaviour of `JobManager.add` / `JobManager.submit`.

Buffers and file contents are modelled as `List Nat` byte lists; 64-bit
machine integers are modelled as `Int` with explicit two's-complement
reduction `% 2^64` at the serialization boundary.
-/

set_option maxRecDepth 8000

namespace Xboinc

/-! ## Definitions -/

/-! ## Byte-level primitives -/
/-- Little-endian decomposition of a natural number into `k` bytes. -/
def toBytesLE : Nat → Nat → List Nat
  | 0, _ => []
  | k + 1, n => (n % 256) :: toBytesLE k (n / 256)

/-- Reassemble a little-endian byte list into a natural number. -/
def fromBytesLE : List Nat → Nat
  | [] => 0
  | b :: bs => b + 256 * fromBytesLE bs

/-! ## Int64 encoding

`xobjects` stores every scalar of `XbInput` / `XbState` as a 64-bit
signed integer.  We model the value as an `Int` constrained to the
signed 64-bit range and serialize via two's complement. -/
/-- The signed 64-bit range predicate. -/
def I64 (i : Int) : Prop := -(2 ^ 63) ≤ i ∧ i < 2 ^ 63

instance (i : Int) : Decidable (I64 i) := by unfold I64; infer_instance

/-- Encode a signed 64-bit integer as 8 little-endian two's-complement bytes. -/
def encInt64 (i : Int) : List Nat :=
  toBytesLE 8 (i % (2 ^ 64)).toNat

/-- Decode 8 little-endian bytes as a signed 64-bit integer. -/
def decInt64 (bs : List Nat) : Int :=
  let n := fromBytesLE bs
  if n < 2 ^ 63 then (n : Int) else (n : Int) - 2 ^ 64

/-! ## Parser combinators on byte lists

`XbInput.from_binary` / `XbState.from_binary` read a byte buffer from a
file and interpret it at fixed offsets.  We model the interpretation as
a left-to-right parser consuming a `List Nat` of bytes. -/
/-- Take exactly `k` bytes from the stream. -/
def readBytes (k : Nat) (bs : List Nat) : Option (List Nat × List Nat) :=
  if k ≤ bs.length then some (bs.take k, bs.drop k) else none

/-- Read one signed 64-bit little-endian integer. -/
def readInt64 (bs : List Nat) : Option (Int × List Nat) :=
  match readBytes 8 bs with
  | some (w, r) => some (decInt64 w, r)
  | none => none

/-- Read `n` consecutive signed 64-bit integers. -/
def readInts : Nat → List Nat → Option (List Int × List Nat)
  | 0, bs => some ([], bs)
  | n + 1, bs =>
    match readInt64 bs with
    | some (i, r) =>
      match readInts n r with
      | some (xs, r2) => some (i :: xs, r2)
      | none => none
    | none => none

/-- Concatenation of the encodings of a list of 64-bit integers. -/
def encInts (xs : List Int) : List Nat :=
  (xs.map encInt64).flatten

/-- A length-prefixed array of 64-bit integers, as stored for the
`xo.Int64[:]` fields `idx_monitors` / `size_monitors`. -/
def encI64Array (xs : List Int) : List Nat :=
  encInt64 xs.length ++ encInts xs

/-- Read a length-prefixed array of 64-bit integers. -/
def readI64Array (bs : List Nat) : Option (List Int × List Nat) :=
  match readInt64 bs with
  | some (n, r) => if 0 ≤ n then readInts n.toNat r else none
  | none => none

/-- Validity of an `Int64[:]` array: the length fits and every entry is
in the signed 64-bit range. -/
def ValidArr (xs : List Int) : Prop :=
  (xs.length : Int) < 2 ^ 63 ∧ ∀ i ∈ xs, I64 i

instance (xs : List Int) : Decidable (ValidArr xs) := by
  unfold ValidArr; infer_instance

/-! ## The version header (`XbVersion`) -/
/-- Modelled from the spec: `xboinc/simulation_io/version.py` is not part
of the provided sources (only its tests and callers are).  Per the spec,
the `VersionHeader` is "a fixed-width integer encoding of a schema
version plus one integer per dependency library; always the first field
... of any top-level structure", with exact-equality comparison.  The
dependency libraries are the seven xsuite packages listed in
`tests/test_version.py` (xobjects, xdeps, xpart, xtrack, xfields, xcoll,
xaux), giving eight packed 64-bit integers in total. -/
structure XbVersionData where
  xboinc_version : Int
  xobjects_version : Int
  xdeps_version : Int
  xpart_version : Int
  xtrack_version : Int
  xfields_version : Int
  xcoll_version : Int
  xaux_version : Int
deriving DecidableEq, Repr

/-- Modelled from the spec: the packed-integer version encoding of
`version.py` ("keep as an explicit, documented fixed-width integer
layout per versioned component"); major/minor/patch packed into one
fixed-width integer. -/
def _version_to_int (major minor patch : Nat) : Int :=
  (major : Int) * 2 ^ 32 + (minor : Int) * 2 ^ 16 + (patch : Int)

/-- The running schema's expected fingerprint, from the versions pinned
in `tests/test_version.py` (xboinc 0.5.0, xobjects 0.5.2, xdeps 0.10.5,
xpart 0.23.1, xtrack 0.88.2, xfields 0.25.1, xcoll 0.6.2, xaux 0.3.5). -/
def xbCurrentVersion : XbVersionData :=
  { xboinc_version := _version_to_int 0 5 0
    xobjects_version := _version_to_int 0 5 2
    xdeps_version := _version_to_int 0 10 5
    xpart_version := _version_to_int 0 23 1
    xtrack_version := _version_to_int 0 88 2
    xfields_version := _version_to_int 0 25 1
    xcoll_version := _version_to_int 0 6 2
    xaux_version := _version_to_int 0 3 5 }

/-- Serialize the version header: eight consecutive Int64 fields. -/
def encVersion (v : XbVersionData) : List Nat :=
  encInt64 v.xboinc_version ++ encInt64 v.xobjects_version ++
  encInt64 v.xdeps_version ++ encInt64 v.xpart_version ++
  encInt64 v.xtrack_version ++ encInt64 v.xfields_version ++
  encInt64 v.xcoll_version ++ encInt64 v.xaux_version

/-- Parse the version header (eight consecutive Int64 fields). -/
def readVersion (bs : List Nat) : Option (XbVersionData × List Nat) :=
  match readInts 8 bs with
  | some ([a, b, c, d, e, f, g, h], r) => some (⟨a, b, c, d, e, f, g, h⟩, r)
  | _ => none

/-- Every field of the version header is in the signed 64-bit range. -/
def ValidVersion (v : XbVersionData) : Prop :=
  I64 v.xboinc_version ∧ I64 v.xobjects_version ∧ I64 v.xdeps_version ∧
  I64 v.xpart_version ∧ I64 v.xtrack_version ∧ I64 v.xfields_version ∧
  I64 v.xcoll_version ∧ I64 v.xaux_version

instance (v : XbVersionData) : Decidable (ValidVersion v) := by
  unfold ValidVersion; infer_instance

/-! ## Line metadata (`ElementRefData`)

Modelled from the spec: the `ElementRefData` class is generated
dynamically inside xtrack (`default_tracker.py` only re-exports it), so
its byte layout is not in the sources.  Per the spec, `LineMetadata` is
an "ordered array of element descriptors (one of a finite closed set of
element kinds) plus an optional parallel array of element names".  We
model a descriptor as a kind tag plus its payload words, and a name as
a byte string. -/
structure ElementRecord where
  kind : Int
  data : List Int
deriving DecidableEq, Repr

/-- Serialize one element descriptor: kind tag, then payload array. -/
def encElement (e : ElementRecord) : List Nat :=
  encInt64 e.kind ++ encI64Array e.data

/-- Parse one element descriptor. -/
def readElement (bs : List Nat) : Option (ElementRecord × List Nat) :=
  match readInt64 bs with
  | some (k, r) =>
    match readI64Array r with
    | some (d, r2) => some (⟨k, d⟩, r2)
    | none => none
  | none => none

/-- Parse `n` consecutive element descriptors. -/
def readElements : Nat → List Nat → Option (List ElementRecord × List Nat)
  | 0, bs => some ([], bs)
  | n + 1, bs =>
    match readElement bs with
    | some (e, r) =>
      match readElements n r with
      | some (es, r2) => some (e :: es, r2)
      | none => none
    | none => none

/-- Serialize a count-prefixed list of element descriptors. -/
def encElements (es : List ElementRecord) : List Nat :=
  encInt64 es.length ++ (es.map encElement).flatten

/-- Parse a count-prefixed list of element descriptors. -/
def readElementsArr (bs : List Nat) : Option (List ElementRecord × List Nat) :=
  match readInt64 bs with
  | some (n, r) => if 0 ≤ n then readElements n.toNat r else none
  | none => none

/-- One element name, a length-prefixed byte string. -/
def encName (n : List Nat) : List Nat :=
  encInt64 n.length ++ n

/-- Parse one length-prefixed byte string. -/
def readName (bs : List Nat) : Option (List Nat × List Nat) :=
  match readInt64 bs with
  | some (n, r) => if 0 ≤ n then readBytes n.toNat r else none
  | none => none

/-- Parse `n` consecutive byte strings. -/
def readNames : Nat → List Nat → Option (List (List Nat) × List Nat)
  | 0, bs => some ([], bs)
  | n + 1, bs =>
    match readName bs with
    | some (s, r) =>
      match readNames n r with
      | some (ss, r2) => some (s :: ss, r2)
      | none => none
    | none => none

/-- Serialize a count-prefixed list of byte strings. -/
def encNames (ns : List (List Nat)) : List Nat :=
  encInt64 ns.length ++ (ns.map encName).flatten

/-- Parse a count-prefixed list of byte strings. -/
def readNamesArr (bs : List Nat) : Option (List (List Nat) × List Nat) :=
  match readInt64 bs with
  | some (n, r) => if 0 ≤ n then readNames n.toNat r else none
  | none => none

/-- The line metadata block: element descriptors plus the optional
parallel array of element names (empty when
`store_element_names=False`). -/
structure LineMeta where
  elements : List ElementRecord
  names : List (List Nat)
deriving DecidableEq, Repr

/-- Serialize a line metadata block. -/
def encLineMeta (m : LineMeta) : List Nat :=
  encElements m.elements ++ encNames m.names

/-- Parse a line metadata block. -/
def readLineMeta (bs : List Nat) : Option (LineMeta × List Nat) :=
  match readElementsArr bs with
  | some (es, r) =>
    match readNamesArr r with
    | some (ns, r2) => some (⟨es, ns⟩, r2)
    | none => none
  | none => none

/-- Validity of one element descriptor. -/
def ValidElement (e : ElementRecord) : Prop :=
  I64 e.kind ∧ ValidArr e.data

instance (e : ElementRecord) : Decidable (ValidElement e) := by
  unfold ValidElement; infer_instance

/-- Validity of one name: length fits and every entry is a byte. -/
def ValidName (n : List Nat) : Prop :=
  (n.length : Int) < 2 ^ 63 ∧ ∀ b ∈ n, b < 256

instance (n : List Nat) : Decidable (ValidName n) := by
  unfold ValidName; infer_instance

/-- Validity of a line metadata block. -/
def ValidLineMeta (m : LineMeta) : Prop :=
  ((m.elements.length : Int) < 2 ^ 63 ∧ ∀ e ∈ m.elements, ValidElement e) ∧
  ((m.names.length : Int) < 2 ^ 63 ∧ ∀ n ∈ m.names, ValidName n)

instance (m : LineMeta) : Decidable (ValidLineMeta m) := by
  unfold ValidLineMeta; infer_instance

/-! ## The particle ensemble block

Modelled from the spec: `xt.Particles._XoStruct` lives in xtrack, not in
the sources; the spec describes it only as "a particle-ensemble block".
We model the per-particle coordinate arrays (positions, momenta,
longitudinal coordinates, turn counters and state flags) as
length-prefixed Int64 arrays stored consecutively. -/
structure ParticlesData where
  x : List Int
  px : List Int
  y : List Int
  py : List Int
  zeta : List Int
  delta : List Int
  at_turn : List Int
  state : List Int
deriving DecidableEq, Repr

/-- Serialize the particle ensemble block. -/
def encParticles (p : ParticlesData) : List Nat :=
  encI64Array p.x ++ encI64Array p.px ++ encI64Array p.y ++ encI64Array p.py ++
  encI64Array p.zeta ++ encI64Array p.delta ++ encI64Array p.at_turn ++
  encI64Array p.state

/-- Parse the particle ensemble block. -/
def readParticles (bs : List Nat) : Option (ParticlesData × List Nat) :=
  match readI64Array bs with
  | some (x, r1) =>
    match readI64Array r1 with
    | some (px, r2) =>
      match readI64Array r2 with
      | some (y, r3) =>
        match readI64Array r3 with
        | some (py, r4) =>
          match readI64Array r4 with
          | some (zeta, r5) =>
            match readI64Array r5 with
            | some (delta, r6) =>
              match readI64Array r6 with
              | some (at_turn, r7) =>
                match readI64Array r7 with
                | some (state, r8) =>
                  some (⟨x, px, y, py, zeta, delta, at_turn, state⟩, r8)
                | none => none
              | none => none
            | none => none
          | none => none
        | none => none
      | none => none
    | none => none
  | none => none

/-- Validity of the particle block: every array is a valid Int64 array. -/
def ValidParticles (p : ParticlesData) : Prop :=
  ValidArr p.x ∧ ValidArr p.px ∧ ValidArr p.y ∧ ValidArr p.py ∧
  ValidArr p.zeta ∧ ValidArr p.delta ∧ ValidArr p.at_turn ∧ ValidArr p.state

instance (p : ParticlesData) : Decidable (ValidParticles p) := by
  unfold ValidParticles; infer_instance

/-! ## `XbState` (output.py)

Field order exactly as declared in `class XbState(xo.Struct)`:
`_version`, `_i_turn`, `_xsize`, `_particles`, `_monitors_metadata`. -/
structure XbStateData where
  _version : XbVersionData
  _i_turn : Int
  _xsize : Int
  _particles : ParticlesData
  _monitors_metadata : LineMeta
deriving DecidableEq, Repr

/-- Serialize an `XbState`: version header first, then the scalar
fields in declaration order, then the variable-length blocks. -/
def encXbState (s : XbStateData) : List Nat :=
  encVersion s._version ++ encInt64 s._i_turn ++ encInt64 s._xsize ++
  encParticles s._particles ++ encLineMeta s._monitors_metadata

/-- Decode errors of `from_binary`: a wrong version fingerprint aborts
with a mismatch error carrying the expected and the found fingerprints
(spec: `VersionMismatch`); structurally short buffers fail as
truncated. -/
inductive DecodeErr where
  | versionMismatch (expected found : XbVersionData)
  | truncated
deriving DecidableEq, Repr

/-- Parse the body of an `XbState` after the version header. -/
def readXbStateBody (v : XbVersionData) (bs : List Nat) :
    Option (XbStateData × List Nat) :=
  match readInt64 bs with
  | some (i_turn, r1) =>
    match readInt64 r1 with
    | some (xsize, r2) =>
      match readParticles r2 with
      | some (p, r3) =>
        match readLineMeta r3 with
        | some (m, r4) => some (⟨v, i_turn, xsize, p, m⟩, r4)
        | none => none
      | none => none
    | none => none
  | none => none

/-- `XbState.from_binary`: read the version header at its fixed offset
first; abort with a version mismatch before interpreting any further
byte when it differs from the running fingerprint; otherwise interpret
the rest of the structure.  Trailing bytes are ignored, as
`_from_buffer` views a buffer without consuming it. -/
def decodeXbState (bs : List Nat) : Except DecodeErr XbStateData :=
  match readVersion bs with
  | none => .error .truncated
  | some (v, r) =>
    if v = xbCurrentVersion then
      match readXbStateBody v r with
      | some (s, _) => .ok s
      | none => .error .truncated
    else
      .error (.versionMismatch xbCurrentVersion v)

/-- Validity of an `XbState` value as produced by the running schema. -/
def ValidXbState (s : XbStateData) : Prop :=
  s._version = xbCurrentVersion ∧ I64 s._i_turn ∧ I64 s._xsize ∧
  ValidParticles s._particles ∧ ValidLineMeta s._monitors_metadata

instance (s : XbStateData) : Decidable (ValidXbState s) := by
  unfold ValidXbState; infer_instance

/-! ## `XbInput` (input.py)

Field order exactly as declared in `class XbInput(xo.Struct)`:
`_version` (first), `num_turns`, `num_elements`, `ele_start`,
`ele_stop`, `checkpoint_every`, `num_monitors`, `idx_monitors`,
`size_monitors`, `line_metadata`, `xb_state` (last). -/
structure XbInputData where
  _version : XbVersionData
  num_turns : Int
  num_elements : Int
  ele_start : Int
  ele_stop : Int
  checkpoint_every : Int
  num_monitors : Int
  idx_monitors : List Int
  size_monitors : List Int
  line_metadata : LineMeta
  xb_state : XbStateData
deriving DecidableEq, Repr

/-- Serialize an `XbInput`: version header, then the scalar fields in
declaration order, then the variable-length blocks in fixed order with
the state block last. -/
def encXbInput (x : XbInputData) : List Nat :=
  encVersion x._version ++ encInt64 x.num_turns ++ encInt64 x.num_elements ++
  encInt64 x.ele_start ++ encInt64 x.ele_stop ++ encInt64 x.checkpoint_every ++
  encInt64 x.num_monitors ++ encI64Array x.idx_monitors ++
  encI64Array x.size_monitors ++ encLineMeta x.line_metadata ++
  encXbState x.xb_state

/-- Parse the body of an `XbInput` after the version header. -/
def readXbInputBody (v : XbVersionData) (bs : List Nat) :
    Option (XbInputData × List Nat) :=
  match readInt64 bs with
  | some (nt, ra) =>
    match readInt64 ra with
    | some (ne, rb) =>
      match readInt64 rb with
      | some (es, rc) =>
        match readInt64 rc with
        | some (eo, rd) =>
          match readInt64 rd with
          | some (ck, re) =>
            match readInt64 re with
            | some (nm, r1) =>
              match readI64Array r1 with
              | some (idx, r2) =>
                match readI64Array r2 with
                | some (sz, r3) =>
                  match readLineMeta r3 with
                  | some (lm, r4) =>
                    match readVersion r4 with
                    | some (sv, r5) =>
                      match readXbStateBody sv r5 with
                      | some (st, r6) =>
                        some (⟨v, nt, ne, es, eo, ck, nm, idx, sz, lm, st⟩, r6)
                      | none => none
                    | none => none
                  | none => none
                | none => none
              | none => none
            | none => none
          | none => none
        | none => none
      | none => none
    | none => none
  | none => none

/-- `XbInput.from_binary`: read the version header at its fixed offset
first; abort with a version mismatch before interpreting any further
byte when it differs from the running fingerprint; otherwise interpret
the remaining structure. -/
def decodeXbInput (bs : List Nat) : Except DecodeErr XbInputData :=
  match readVersion bs with
  | none => .error .truncated
  | some (v, r) =>
    if v = xbCurrentVersion then
      match readXbInputBody v r with
      | some (x, _) => .ok x
      | none => .error .truncated
    else
      .error (.versionMismatch xbCurrentVersion v)

/-- Validity of an `XbInput` value as produced by the running schema. -/
def ValidXbInput (x : XbInputData) : Prop :=
  x._version = xbCurrentVersion ∧ I64 x.num_turns ∧ I64 x.num_elements ∧
  I64 x.ele_start ∧ I64 x.ele_stop ∧ I64 x.checkpoint_every ∧
  I64 x.num_monitors ∧ ValidArr x.idx_monitors ∧ ValidArr x.size_monitors ∧
  ValidLineMeta x.line_metadata ∧ ValidXbState x.xb_state

instance (x : XbInputData) : Decidable (ValidXbInput x) := by
  unfold ValidXbInput; infer_instance

/-! ## Element range handling in `XbInput.__init__` (input.py lines 159-181)

The constructor clamps `ele_start` to zero, asserts the range bounds and
positive turn count, replaces `ele_stop = -1` by `num_elements`, and in
the explicit-stop branch adds one extra turn when `ele_stop <=
ele_start` (wraparound).  `none` models a failing `assert`. -/
def init_ele_range (num_turns num_elements ele_start0 ele_stop0 : Int) :
    Option (Int × Int × Int) :=
  if 0 ≤ max 0 ele_start0 ∧ max 0 ele_start0 ≤ num_elements then
    if 0 < num_turns then
      if ele_stop0 = -1 then
        some (num_turns, max 0 ele_start0, num_elements)
      else if 0 ≤ ele_stop0 ∧ ele_stop0 ≤ num_elements then
        if ele_stop0 ≤ max 0 ele_start0 then
          some (num_turns + 1, max 0 ele_start0, ele_stop0)
        else
          some (num_turns, max 0 ele_start0, ele_stop0)
      else none
    else none
  else none

/-! ## Buffer shrinking (input.py `_shrink`, to_binary paths)

An xobjects buffer is a byte arena with some free (unoccupied) trailing
capacity.  `_shrink` removes all free capacity; `XbInput.to_binary`
shrinks and then writes the whole arena, `XbState.to_binary` writes the
whole arena as-is. -/
structure XBuffer where
  data : List Nat
  free : Nat
deriving DecidableEq, Repr

/-- `buffer.capacity`: the allocated size of the arena. -/
def XBuffer.capacity (b : XBuffer) : Nat := b.data.length

/-- `buffer.get_free()`: the unoccupied trailing capacity. -/
def XBuffer.get_free (b : XBuffer) : Nat := b.free

/-- The occupied size of the arena. -/
def XBuffer.occupied (b : XBuffer) : Nat := b.capacity - b.free

/-- `_shrink(buffer)`: if there is free capacity, reallocate at
`capacity - get_free()` bytes, copy that many bytes, and zero the free
list. -/
def _shrink (b : XBuffer) : XBuffer :=
  if 0 < b.get_free then
    { data := b.data.take (b.capacity - b.get_free), free := 0 }
  else b

/-- `XbInput.to_binary`: shrink the buffer, then write all its bytes. -/
def xbinput_to_binary (b : XBuffer) : List Nat := (_shrink b).data

/-- `XbState.to_binary`: write all the buffer's bytes (no shrink in
output.py). -/
def xbstate_to_binary (b : XBuffer) : List Nat := b.data

/-! ## Finalizing the state size (input.py lines 182-187)

After shrinking, `__init__` records
`xb_state._xsize = buffer.capacity - xb_state._offset`; the state block
is the last region of the buffer, so its offset is the total length
minus its own encoded size. -/
def finalizeStateSize (x : XbInputData) : XbInputData :=
  { x with xb_state := { x.xb_state with _xsize :=
      (((encXbInput x).length -
        ((encXbInput x).length - (encXbState x.xb_state).length) : Nat) : Int) } }

/-- The bytes of an `XbInput` that precede the trailing state block. -/
def inputHeadBytes (x : XbInputData) : List Nat :=
  encVersion x._version ++ encInt64 x.num_turns ++ encInt64 x.num_elements ++
  encInt64 x.ele_start ++ encInt64 x.ele_stop ++ encInt64 x.checkpoint_every ++
  encInt64 x.num_monitors ++ encI64Array x.idx_monitors ++
  encI64Array x.size_monitors ++ encLineMeta x.line_metadata

/-! ## Decimal digit rendering for staged filenames -/
/-- The little-endian decimal digits of a natural number. -/
def digitsLE (n : Nat) : List Nat :=
  if n < 10 then [n] else n % 10 :: digitsLE (n / 10)
termination_by n
decreasing_by
  simp_wf
  omega

/-- Reassemble little-endian decimal digits. -/
def fromDigitsLE : List Nat → Nat
  | [] => 0
  | d :: ds => d + 10 * fromDigitsLE ds

/-- The usual big-endian decimal rendering, as bytes of digit values. -/
def digitsBE (n : Nat) : List Nat := (digitsLE n).reverse

/-! ## The tracking engine and the checkpoint contract

Modelled from the spec: the compute executable (`main.cpp`, generated
outside src/) implements the CheckpointContract.  Per the spec it runs
the turn loop single-threaded from the state's embedded turn counter up
to `num_turns`, persists a complete `XbState` snapshot at checkpoint
boundaries, and on start resumes from an existing checkpoint's embedded
turn counter rather than restarting at turn 0.  The per-turn physics is
an external collaborator, abstracted as a function `step` on the
particle ensemble and monitor block. -/
def engineTurn (step : ParticlesData × LineMeta → ParticlesData × LineMeta)
    (s : XbStateData) : XbStateData :=
  let pm := step (s._particles, s._monitors_metadata)
  { s with _i_turn := s._i_turn + 1, _particles := pm.1,
           _monitors_metadata := pm.2 }

/-- The engine's turn loop: starting from the state's embedded turn
counter, track until the turn counter reaches `target`. -/
def runTo (step : ParticlesData × LineMeta → ParticlesData × LineMeta)
    (target : Int) (s : XbStateData) : XbStateData :=
  (engineTurn step)^[(target - s._i_turn).toNat] s

/-- One uninterrupted execution: track to `num_turns` and persist the
terminal state with the codec. -/
def runUninterrupted (step : ParticlesData × LineMeta → ParticlesData × LineMeta)
    (num_turns : Int) (s : XbStateData) : List Nat :=
  encXbState (runTo step num_turns s)

/-- An execution with one interruption-then-resume cycle per entry of
`cps`: each session tracks to the next checkpoint boundary, persists an
`XbState` snapshot, is killed, and the next session resumes from the
decoded checkpoint's embedded turn counter; the final session tracks to
`num_turns` and persists the terminal state. -/
def runInterrupted (step : ParticlesData × LineMeta → ParticlesData × LineMeta)
    (num_turns : Int) (s : XbStateData) :
    List Int → Except DecodeErr (List Nat)
  | [] => .ok (encXbState (runTo step num_turns s))
  | t :: ts =>
    let cp := encXbState (runTo step t s)
    match decodeXbState cp with
    | .ok s2 => runInterrupted step num_turns s2 ts
    | .error e => .error e

/-- A physics step that keeps the particle block and the monitor block
representable stays valid; the engine additionally only increments the
turn counter, so validity is preserved along a run whose turn counter
stays below `2^63`. -/
def StepOk (step : ParticlesData × LineMeta → ParticlesData × LineMeta) : Prop :=
  ∀ pm : ParticlesData × LineMeta, ValidParticles pm.1 → ValidLineMeta pm.2 →
    ValidParticles (step pm).1 ∧ ValidLineMeta (step pm).2

/-! ## Constructing an `XbInput` (input.py `XbInput.__init__`)

Identifiers, filenames and file contents are modelled as byte lists.
The monitor scan of `__init__` walks the line's element dictionary and
collects the indices and buffer sizes of the particle-monitor elements;
we designate one kind tag of the closed element set as the monitor
kind. -/
/-- The element-kind tag of `xtrack.monitors.particles_monitor`. -/
def monitorKindTag : Int := 23

/-- The indices of the monitor elements in the line. -/
def monitorIndices (es : List ElementRecord) : List Int :=
  ((List.range es.length).filter (fun i =>
    match es[i]? with
    | some e => e.kind = monitorKindTag
    | none => false)).map (fun i => (i : Int))

/-- The monitor elements of the line, in line order. -/
def monitorElements (es : List ElementRecord) : List ElementRecord :=
  es.filter (fun e => e.kind = monitorKindTag)

/-- The buffer size of one element (`element._xobject._size`): its
encoded byte size. -/
def elementSize (e : ElementRecord) : Int := ((encElement e).length : Int)

/-- `XbInput.__init__` for a fresh particle ensemble (`particles=...`,
`_i_turn=0`): collect the monitor data, build the line metadata and the
trailing state, validate the element range (adding the wraparound turn
when needed), shrink, and record the state size.  `none` models a
failing assertion. -/
def mkXbInput (num_turns : Int) (line : LineMeta) (particles : ParticlesData)
    (checkpoint_every : Int) (store_element_names : Bool)
    (ele_start : Int) (ele_stop : Int) : Option XbInputData :=
  match init_ele_range num_turns (line.elements.length : Int) ele_start ele_stop with
  | none => none
  | some (nt, s, e) =>
    let monEls := monitorElements line.elements
    let monNames :=
      ((line.elements.zip line.names).filter
        (fun p => p.1.kind = monitorKindTag)).map (fun p => p.2)
    some (finalizeStateSize
      { _version := xbCurrentVersion
        num_turns := nt
        num_elements := (line.elements.length : Int)
        ele_start := s
        ele_stop := e
        checkpoint_every := checkpoint_every
        num_monitors := (monEls.length : Int)
        idx_monitors := monitorIndices line.elements
        size_monitors := monEls.map elementSize
        line_metadata :=
          { elements := line.elements
            names := if store_element_names then line.names else [] }
        xb_state :=
          { _version := xbCurrentVersion
            _i_turn := 0
            _xsize := 0
            _particles := particles
            _monitors_metadata :=
              { elements := monEls
                names := if store_element_names then monNames else [] } } })

/-! ## The submission queue writer (`submit.py JobManager`) -/
/-- The reserved two-character delimiter, the bytes of the sequence of
two underscores. -/
def delim : List Nat := [95, 95]

/-- `"__" in s`: whether the byte list contains two consecutive
underscores. -/
def containsDelim : List Nat → Bool
  | 95 :: 95 :: _ => true
  | _ :: rest => containsDelim rest
  | [] => false

/-- The `.tar.gz` archive suffix as bytes. -/
def tarExt : List Nat := [46, 116, 97, 114, 46, 103, 122]

/-- The `.json` suffix as bytes. -/
def jsonExt : List Nat := [46, 106, 115, 111, 110]

/-- The `.bin` suffix as bytes. -/
def binExt : List Nat := [46, 98, 105, 110]

/-- A staged file: a name and its byte content. -/
structure JobFile where
  name : List Nat
  content : List Nat
deriving DecidableEq, Repr

/-- The archive published by `submit()`: target directory, archive
name, and its members. -/
structure Archive where
  dir : List Nat
  name : List Nat
  members : List JobFile
deriving DecidableEq, Repr

/-- The error taxonomy of the bundler (spec §7): `AlreadySubmitted`
models the `ValueError` of `_assert_not_submitted`, `invalidName` the
reserved-delimiter rejection, `invalidInput` a failing assertion inside
`XbInput.__init__`. -/
inductive SubmitErr where
  | alreadySubmitted
  | invalidName
  | invalidInput
deriving DecidableEq, Repr

/-- The `JobManager` state: submitter, study, target directory, the
archive name fixed at construction, the two staged-file lists, the
submitted flag, and the wall clock (in milliseconds) last observed by
`timestamp`. -/
structure JobManager where
  _user : List Nat
  _study_name : List Nat
  _target : List Nat
  _submit_file : List Nat
  _json_files : List JobFile
  _bin_files : List JobFile
  _submitted : Bool
  now_ms : Nat
deriving DecidableEq, Repr

/-- `JobManager.__init__`: reject a study name containing the reserved
delimiter, fix the archive name `{user}__{study}__{timestamp}.tar.gz`,
and start with no staged files and the submitted flag cleared. -/
def mkJobManager (user study target : List Nat) (ts : Nat) :
    Option JobManager :=
  if containsDelim study then none
  else some
    { _user := user
      _study_name := study
      _target := target
      _submit_file := user ++ delim ++ study ++ delim ++ digitsBE ts ++ tarExt
      _json_files := []
      _bin_files := []
      _submitted := false
      now_ms := ts }

/-- One job request passed to `JobManager.add`. -/
structure JobSpec where
  job_name : List Nat
  num_turns : Int
  particles : ParticlesData
  line : LineMeta
  checkpoint_every : Int
deriving Repr

/-- A double-quoted `"key": "value"` fragment of the metadata record. -/
def jsonField (k v : List Nat) : List Nat :=
  [34] ++ k ++ [34, 58, 32, 34] ++ v ++ [34]

/-- The decimal rendering of an integer as bytes. -/
def intDigits (i : Int) : List Nat :=
  if i < 0 then 45 :: digitsBE (-i).toNat else digitsBE i.toNat

/-- The metadata record staged next to each binary: user, study name,
job name, schema version, surviving-particle count and turn count
(`json.dump(json_dict, ...)`).  Byte 123 and byte 125 are the JSON
object delimiters, byte 44 the comma. -/
def jsonBytes (user study : List Nat) (spec : JobSpec) : List Nat :=
  [123] ++
  jsonField [117, 115, 101, 114] user ++ [44] ++
  jsonField [115, 116, 117, 100, 121] study ++ [44] ++
  jsonField [106, 111, 98] spec.job_name ++ [44] ++
  jsonField [118, 101, 114] (digitsBE 0 ++ [46] ++ digitsBE 5 ++ [46] ++ digitsBE 0) ++ [44] ++
  jsonField [112, 97, 114, 116] (intDigits ((spec.particles.state.filter (fun st => 0 < st)).length : Int)) ++ [44] ++
  jsonField [116, 117, 114, 110, 115] (intDigits spec.num_turns) ++
  [125]

/-- `JobManager.add`: refuse after submission; refuse a job name
containing the reserved delimiter; sleep at least one millisecond, read
the millisecond timestamp, stage `{user}__{timestamp}.json` and
`{user}__{timestamp}.bin` (the binary written with
`store_element_names=False`); a failing `XbInput` assertion leaves the
staged lists unchanged.  `dms` is the extra real time elapsed beyond
the enforced one-millisecond minimum spacing. -/
def JobManager.add (jm : JobManager) (spec : JobSpec) (dms : Nat) :
    JobManager × Except SubmitErr Unit :=
  if jm._submitted then (jm, .error .alreadySubmitted)
  else if containsDelim spec.job_name then (jm, .error .invalidName)
  else
    let now := jm.now_ms + 1 + dms
    let base := jm._user ++ delim ++ digitsBE now
    match mkXbInput spec.num_turns spec.line spec.particles
        spec.checkpoint_every false 0 (-1) with
    | none => (jm, .error .invalidInput)
    | some x =>
      ({ jm with
          _json_files := jm._json_files ++
            [JobFile.mk (base ++ jsonExt) (jsonBytes jm._user jm._study_name spec)]
          _bin_files := jm._bin_files ++ [JobFile.mk (base ++ binExt) (encXbInput x)]
          now_ms := now }, .ok ())

/-- `JobManager.submit`: refuse after submission; otherwise package all
staged pairs into one archive under the fixed archive name, move it to
the target directory, and set the submitted flag. -/
def JobManager.submit (jm : JobManager) :
    JobManager × Except SubmitErr Archive :=
  if jm._submitted then (jm, .error .alreadySubmitted)
  else
    ({ jm with _submitted := true },
      .ok { dir := jm._target
            name := jm._submit_file
            members := (jm._json_files ++ jm._bin_files) })

/-- Fold a list of `add` calls, failing when any single call fails. -/
def JobManager.addAll (jm : JobManager) :
    List (JobSpec × Nat) → Option JobManager
  | [] => some jm
  | (spec, dms) :: rest =>
    match jm.add spec dms with
    | (jm2, .ok _) => jm2.addAll rest
    | (_, .error _) => none

/-- A member staged by `add` is well formed: its name is
`{user}__{timestamp}` followed by the given suffix, and its content
exceeds 8 bytes. -/
def StagedOk (user ext : List Nat) (f : JobFile) : Prop :=
  (∃ t, f.name = user ++ delim ++ t ++ ext) ∧ 8 < f.content.length

/-! ## Concrete example values -/
/-- A small concrete particle ensemble of two particles. -/
def exParticles : ParticlesData :=
  { x := [1, 2], px := [0, 3], y := [4, -1], py := [0, 1], zeta := [2, 2],
    delta := [0, 0], at_turn := [0, 0], state := [1, 1] }

/-- A small concrete line of three elements, one of them a monitor. -/
def exLine : LineMeta :=
  { elements := [⟨1, [5, 7]⟩, ⟨monitorKindTag, [9]⟩, ⟨2, []⟩]
    names := [[97], [98], [99]] }

/-- A small concrete state. -/
def exState : XbStateData :=
  { _version := xbCurrentVersion
    _i_turn := 0
    _xsize := 0
    _particles := exParticles
    _monitors_metadata := { elements := [⟨monitorKindTag, [9]⟩], names := [] } }

/-- A small concrete input. -/
def exInput : XbInputData :=
  { _version := xbCurrentVersion
    num_turns := 10
    num_elements := 3
    ele_start := 0
    ele_stop := 3
    checkpoint_every := -1
    num_monitors := 1
    idx_monitors := [1]
    size_monitors := [32]
    line_metadata := exLine
    xb_state := exState }

/-- A version header that differs from the running fingerprint. -/
def badVersion : XbVersionData :=
  { xbCurrentVersion with xboinc_version := 0 }

/-- Example submitter / study / target directory byte strings
("alice", "study1", "in"). -/
def exUser : List Nat := [97, 108, 105, 99, 101]

def exStudy : List Nat := [115, 116, 117, 100, 121, 49]

def exTarget : List Nat := [105, 110]

/-- One example job request. -/
def exSpec : JobSpec :=
  { job_name := [106, 49]
    num_turns := 10
    particles := exParticles
    line := exLine
    checkpoint_every := -1 }

instance : Inhabited XbVersionData := ⟨xbCurrentVersion⟩

instance : Inhabited ParticlesData := ⟨exParticles⟩

instance : Inhabited XbStateData := ⟨exState⟩

instance : Inhabited XbInputData := ⟨exInput⟩

instance : Inhabited JobManager :=
  ⟨{ _user := [], _study_name := [], _target := [], _submit_file := [],
     _json_files := [], _bin_files := [], _submitted := false, now_ms := 0 }⟩

instance : Inhabited Archive := ⟨{ dir := [], name := [], members := [] }⟩

/-- The example manager right after construction. -/
def exJM0 : JobManager := (mkJobManager exUser exStudy exTarget 7).getD default

/-- Three example jobs. -/
def exSpecs : List (JobSpec × Nat) := [(exSpec, 0), (exSpec, 0), (exSpec, 4)]

/-- The example manager after the three adds. -/
def exJM1 : JobManager := (exJM0.addAll exSpecs).getD default

/-- The example manager after submission. -/
def exJM2 : JobManager := exJM1.submit.1

/-- The example archive produced by the submission. -/
def exArch : Archive :=
  match exJM1.submit.2 with
  | .ok a => a
  | .error _ => default

/-- The example manager after one add. -/
def exJMa : JobManager := (exJM0.add exSpec 0).1

/-- The example manager after two adds. -/
def exJMb : JobManager := (exJMa.add exSpec 0).1

/-- C6 as stated: after construction the range invariant
`0 <= ele_start <= ele_stop <= num_elements` holds, except when the
caller supplies `ele_stop <= ele_start` (with `ele_stop = -1` replaced
by `num_elements`), in which case `num_turns` is incremented by exactly
one. -/
def rangeClaimAt (num_turns num_elements ele_start0 ele_stop0 : Int) : Prop :=
  ∀ nt s e,
    init_ele_range num_turns num_elements ele_start0 ele_stop0 =
      some (nt, s, e) →
    if (if ele_stop0 = -1 then num_elements else ele_stop0) ≤ ele_start0 then
      nt = num_turns + 1
    else 0 ≤ s ∧ s ≤ e ∧ e ≤ num_elements ∧ nt = num_turns

/-- C7 as stated: every `to_binary` path — `XbInput` and `XbState` —
writes exactly the occupied bytes of the buffer, with no trailing
free-capacity padding. -/
def shrinkClaim : Prop :=
  ∀ b : XBuffer, b.free ≤ b.capacity →
    (xbinput_to_binary b).length = b.occupied ∧
    (xbstate_to_binary b).length = b.occupied

/-- A concrete constructed input for the C8 witness. -/
def exInput2 : XbInputData :=
  (mkXbInput 5 exLine exParticles (-1) true 0 (-1)).getD default

/-! ## Theorems -/

theorem length_toBytesLE (k n : Nat) : (toBytesLE k n).length = k := by
  induction k generalizing n with
  | zero => rfl
  | succ k ih => simp [toBytesLE, ih]

theorem fromBytesLE_toBytesLE (k n : Nat) (h : n < 256 ^ k) :
    fromBytesLE (toBytesLE k n) = n := by
  induction k generalizing n with
  | zero =>
    simp [toBytesLE, fromBytesLE]
    omega
  | succ k ih =>
    simp only [toBytesLE, fromBytesLE]
    rw [ih]
    · omega
    · have : 256 ^ (k + 1) = 256 ^ k * 256 := by ring
      rw [this] at h
      omega

/-- Each emitted byte is below 256. -/
theorem toBytesLE_lt (k n : Nat) : ∀ b ∈ toBytesLE k n, b < 256 := by
  induction k generalizing n with
  | zero => simp [toBytesLE]
  | succ k ih =>
    intro b hb
    simp only [toBytesLE, List.mem_cons] at hb
    rcases hb with h | h
    · omega
    · exact ih _ _ h

theorem length_encInt64 (i : Int) : (encInt64 i).length = 8 :=
  length_toBytesLE 8 _

theorem decInt64_encInt64 (i : Int) (h : I64 i) : decInt64 (encInt64 i) = i := by
  unfold decInt64 encInt64
  obtain ⟨h1, h2⟩ := h
  have hmod : (i % (2 ^ 64)).toNat < 256 ^ 8 := by
    have : (0 : Int) ≤ i % 2 ^ 64 := Int.emod_nonneg i (by norm_num)
    have : i % 2 ^ 64 < 2 ^ 64 := Int.emod_lt_of_pos i (by norm_num)
    omega
  rw [fromBytesLE_toBytesLE 8 _ hmod]
  by_cases hc : 0 ≤ i
  · have : i % 2 ^ 64 = i := Int.emod_eq_of_lt hc (by omega)
    rw [this]
    simp only [Int.toNat_of_nonneg hc]
    have : i < (2 : Int) ^ 63 := h2
    split
    · rfl
    · omega
  · push_neg at hc
    have he : i % 2 ^ 64 = i + 2 ^ 64 := by
      have h64 : ((2 : Int) ^ 64) = 2 ^ 64 := rfl
      rw [Int.emod_def]
      have : i / 2 ^ 64 = -1 := by
        have : (2 : Int) ^ 64 = 18446744073709551616 := by norm_num
        omega
      rw [this]
      ring
    rw [he]
    have hpos : (0 : Int) ≤ i + 2 ^ 64 := by
      have : -(2 : Int) ^ 63 ≤ i := h1
      have : (2 : Int) ^ 64 = 2 ^ 63 * 2 := by ring
      omega
    simp only
    have hge : ¬ ((i + 2 ^ 64).toNat < 2 ^ 63) := by
      have : -(2 : Int) ^ 63 ≤ i := h1
      omega
    rw [if_neg hge]
    omega

theorem readBytes_append (xs rest : List Nat) :
    readBytes xs.length (xs ++ rest) = some (xs, rest) := by
  unfold readBytes
  rw [if_pos (by simp)]
  simp

theorem readInt64_append (i : Int) (rest : List Nat) (h : I64 i) :
    readInt64 (encInt64 i ++ rest) = some (i, rest) := by
  unfold readInt64
  have hl : (encInt64 i).length = 8 := length_encInt64 i
  rw [← hl, readBytes_append]
  simp [decInt64_encInt64 i h]

theorem readInts_append (xs : List Int) (rest : List Nat)
    (h : ∀ i ∈ xs, I64 i) :
    readInts xs.length (encInts xs ++ rest) = some (xs, rest) := by
  induction xs with
  | nil => simp [readInts, encInts]
  | cons x xs ih =>
    simp only [List.length_cons, readInts, encInts, List.map_cons, List.flatten_cons,
      List.append_assoc]
    rw [readInt64_append x _ (h x (by simp))]
    have := ih (fun i hi => h i (by simp [hi]))
    unfold encInts at this
    simp only [this]

theorem readI64Array_append (xs : List Int) (rest : List Nat)
    (hlen : (xs.length : Int) < 2 ^ 63) (h : ∀ i ∈ xs, I64 i) :
    readI64Array (encI64Array xs ++ rest) = some (xs, rest) := by
  unfold readI64Array encI64Array
  rw [List.append_assoc, readInt64_append _ _ ⟨by omega, hlen⟩]
  simp only [Int.toNat_natCast, if_pos (Int.natCast_nonneg xs.length)]
  exact readInts_append xs rest h

theorem readI64Array_append_valid (xs : List Int) (rest : List Nat)
    (h : ValidArr xs) :
    readI64Array (encI64Array xs ++ rest) = some (xs, rest) :=
  readI64Array_append xs rest h.1 h.2

theorem length_encVersion (v : XbVersionData) : (encVersion v).length = 64 := by
  simp [encVersion, length_encInt64]

theorem readVersion_append (v : XbVersionData) (rest : List Nat)
    (h : ValidVersion v) :
    readVersion (encVersion v ++ rest) = some (v, rest) := by
  obtain ⟨h1, h2, h3, h4, h5, h6, h7, h8⟩ := h
  unfold readVersion encVersion
  have : [v.xboinc_version, v.xobjects_version, v.xdeps_version, v.xpart_version,
          v.xtrack_version, v.xfields_version, v.xcoll_version, v.xaux_version].length = 8 := rfl
  rw [show (8 : Nat) = [v.xboinc_version, v.xobjects_version, v.xdeps_version, v.xpart_version,
          v.xtrack_version, v.xfields_version, v.xcoll_version, v.xaux_version].length from rfl]
  have henc : encInt64 v.xboinc_version ++ encInt64 v.xobjects_version ++
      encInt64 v.xdeps_version ++ encInt64 v.xpart_version ++
      encInt64 v.xtrack_version ++ encInt64 v.xfields_version ++
      encInt64 v.xcoll_version ++ encInt64 v.xaux_version ++ rest =
      encInts [v.xboinc_version, v.xobjects_version, v.xdeps_version, v.xpart_version,
          v.xtrack_version, v.xfields_version, v.xcoll_version, v.xaux_version] ++ rest := by
    simp [encInts]
  rw [henc, readInts_append]
  intro i hi
  simp only [List.mem_cons, List.not_mem_nil, or_false] at hi
  rcases hi with rfl | rfl | rfl | rfl | rfl | rfl | rfl | rfl <;> assumption

theorem readElement_append (e : ElementRecord) (rest : List Nat)
    (h : ValidElement e) :
    readElement (encElement e ++ rest) = some (e, rest) := by
  unfold readElement encElement
  rw [List.append_assoc, readInt64_append _ _ h.1]
  simp only [readI64Array_append_valid _ _ h.2]

theorem readElements_append (es : List ElementRecord) (rest : List Nat)
    (h : ∀ e ∈ es, ValidElement e) :
    readElements es.length ((es.map encElement).flatten ++ rest) = some (es, rest) := by
  induction es with
  | nil => simp [readElements]
  | cons e es ih =>
    simp only [List.length_cons, readElements, List.map_cons, List.flatten_cons,
      List.append_assoc]
    rw [readElement_append e _ (h e (by simp))]
    simp only [ih (fun x hx => h x (by simp [hx]))]

theorem readElementsArr_append (es : List ElementRecord) (rest : List Nat)
    (hlen : (es.length : Int) < 2 ^ 63) (h : ∀ e ∈ es, ValidElement e) :
    readElementsArr (encElements es ++ rest) = some (es, rest) := by
  unfold readElementsArr encElements
  rw [List.append_assoc, readInt64_append _ _ ⟨by omega, hlen⟩]
  simp only [Int.toNat_natCast, if_pos (Int.natCast_nonneg es.length)]
  exact readElements_append es rest h

theorem readName_append (n : List Nat) (rest : List Nat)
    (hlen : (n.length : Int) < 2 ^ 63) :
    readName (encName n ++ rest) = some (n, rest) := by
  unfold readName encName
  rw [List.append_assoc, readInt64_append _ _ ⟨by omega, hlen⟩]
  simp only [Int.toNat_natCast, if_pos (Int.natCast_nonneg n.length)]
  exact readBytes_append n rest

theorem readNames_append (ns : List (List Nat)) (rest : List Nat)
    (h : ∀ n ∈ ns, (n.length : Int) < 2 ^ 63) :
    readNames ns.length ((ns.map encName).flatten ++ rest) = some (ns, rest) := by
  induction ns with
  | nil => simp [readNames]
  | cons n ns ih =>
    simp only [List.length_cons, readNames, List.map_cons, List.flatten_cons,
      List.append_assoc]
    rw [readName_append n _ (h n (by simp))]
    simp only [ih (fun x hx => h x (by simp [hx]))]

theorem readNamesArr_append (ns : List (List Nat)) (rest : List Nat)
    (hlen : (ns.length : Int) < 2 ^ 63)
    (h : ∀ n ∈ ns, (n.length : Int) < 2 ^ 63) :
    readNamesArr (encNames ns ++ rest) = some (ns, rest) := by
  unfold readNamesArr encNames
  rw [List.append_assoc, readInt64_append _ _ ⟨by omega, hlen⟩]
  simp only [Int.toNat_natCast, if_pos (Int.natCast_nonneg ns.length)]
  exact readNames_append ns rest h

theorem readLineMeta_append (m : LineMeta) (rest : List Nat)
    (h : ValidLineMeta m) :
    readLineMeta (encLineMeta m ++ rest) = some (m, rest) := by
  unfold readLineMeta encLineMeta
  rw [List.append_assoc, readElementsArr_append _ _ h.1.1 h.1.2]
  simp only [readNamesArr_append _ _ h.2.1 (fun n hn => (h.2.2 n hn).1)]

theorem readParticles_append (p : ParticlesData) (rest : List Nat)
    (h : ValidParticles p) :
    readParticles (encParticles p ++ rest) = some (p, rest) := by
  obtain ⟨h1, h2, h3, h4, h5, h6, h7, h8⟩ := h
  unfold readParticles encParticles
  simp only [List.append_assoc]
  rw [readI64Array_append_valid _ _ h1]
  simp only [readI64Array_append_valid _ _ h2, readI64Array_append_valid _ _ h3,
    readI64Array_append_valid _ _ h4, readI64Array_append_valid _ _ h5,
    readI64Array_append_valid _ _ h6, readI64Array_append_valid _ _ h7,
    readI64Array_append_valid _ _ h8]

theorem currentVersion_valid : ValidVersion xbCurrentVersion := by decide

theorem readXbStateBody_append (s : XbStateData) (rest : List Nat)
    (h : ValidXbState s) :
    readXbStateBody s._version
      (encInt64 s._i_turn ++ encInt64 s._xsize ++ encParticles s._particles ++
        encLineMeta s._monitors_metadata ++ rest) = some (s, rest) := by
  obtain ⟨hv, h1, h2, h3, h4⟩ := h
  unfold readXbStateBody
  simp only [List.append_assoc]
  rw [readInt64_append _ _ h1]
  simp only [readInt64_append _ _ h2, readParticles_append _ _ h3,
    readLineMeta_append _ _ h4]

/-- Round trip for `XbState` with trailing bytes. -/
theorem decodeXbState_enc_append (s : XbStateData) (rest : List Nat)
    (h : ValidXbState s) :
    decodeXbState (encXbState s ++ rest) = .ok s := by
  unfold decodeXbState encXbState
  have hv : s._version = xbCurrentVersion := h.1
  simp only [List.append_assoc]
  rw [readVersion_append _ _ (hv ▸ currentVersion_valid)]
  simp only [hv, if_pos rfl]
  have := readXbStateBody_append s rest h
  simp only [List.append_assoc, hv] at this
  simp only [this, if_true]

theorem decodeXbState_encXbState (s : XbStateData) (h : ValidXbState s) :
    decodeXbState (encXbState s) = .ok s := by
  have := decodeXbState_enc_append s [] h
  simpa using this

theorem readXbInputBody_append (x : XbInputData) (rest : List Nat)
    (h : ValidXbInput x) :
    readXbInputBody x._version
      (encInt64 x.num_turns ++ encInt64 x.num_elements ++ encInt64 x.ele_start ++
        encInt64 x.ele_stop ++ encInt64 x.checkpoint_every ++
        encInt64 x.num_monitors ++ encI64Array x.idx_monitors ++
        encI64Array x.size_monitors ++ encLineMeta x.line_metadata ++
        encXbState x.xb_state ++ rest) = some (x, rest) := by
  obtain ⟨hv, h1, h2, h3, h4, h5, h6, h7, h8, h9, h10⟩ := h
  unfold readXbInputBody
  simp only [List.append_assoc]
  rw [readInt64_append _ _ h1]
  simp only [readInt64_append _ _ h2, readInt64_append _ _ h3,
    readInt64_append _ _ h4, readInt64_append _ _ h5, readInt64_append _ _ h6,
    readI64Array_append_valid _ _ h7, readI64Array_append_valid _ _ h8,
    readLineMeta_append _ _ h9]
  unfold encXbState
  simp only [List.append_assoc]
  rw [readVersion_append _ _ (h10.1 ▸ currentVersion_valid)]
  have := readXbStateBody_append x.xb_state rest h10
  simp only [List.append_assoc] at this
  simp only [this]

/-- Round trip for `XbInput` with trailing bytes. -/
theorem decodeXbInput_enc_append (x : XbInputData) (rest : List Nat)
    (h : ValidXbInput x) :
    decodeXbInput (encXbInput x ++ rest) = .ok x := by
  unfold decodeXbInput encXbInput
  have hv : x._version = xbCurrentVersion := h.1
  simp only [List.append_assoc]
  rw [readVersion_append _ _ (hv ▸ currentVersion_valid)]
  simp only [hv, if_pos rfl]
  have := readXbInputBody_append x rest h
  simp only [List.append_assoc, hv] at this
  simp only [this, if_true]

theorem decodeXbInput_encXbInput (x : XbInputData) (h : ValidXbInput x) :
    decodeXbInput (encXbInput x) = .ok x := by
  have := decodeXbInput_enc_append x [] h
  simpa using this

/-! ## Locality of the version gate

`from_binary` casts only the version field before validating; the lemmas
below show the parse of the version header depends only on the first 64
bytes of the buffer, so a mismatched buffer is rejected before any
further byte is interpreted. -/
theorem readInt64_eq_none (bs : List Nat) (h : bs.length < 8) :
    readInt64 bs = none := by
  unfold readInt64 readBytes
  rw [if_neg (by omega)]

theorem readInt64_eq_some (bs : List Nat) (h : 8 ≤ bs.length) :
    readInt64 bs = some (decInt64 (bs.take 8), bs.drop 8) := by
  unfold readInt64 readBytes
  rw [if_pos h]

/-- `readInts` consumes exactly `8 * n` bytes, and the values it reads
depend only on those bytes. -/
theorem readInts_congr (n : Nat) (b1 b2 : List Nat)
    (h : b1.take (8 * n) = b2.take (8 * n)) :
    (readInts n b1 = none ∧ readInts n b2 = none) ∨
    (∃ xs, readInts n b1 = some (xs, b1.drop (8 * n)) ∧
           readInts n b2 = some (xs, b2.drop (8 * n))) := by
  induction n generalizing b1 b2 with
  | zero => right; exact ⟨[], by simp [readInts], by simp [readInts]⟩
  | succ n ih =>
    by_cases hlen : 8 ≤ b1.length
    · have hlen2 : 8 ≤ b2.length := by
        have := congrArg List.length h
        simp only [List.length_take] at this
        omega
      have htake8 : b1.take 8 = b2.take 8 := by
        have h8 : (8 : Nat) ≤ 8 * (n + 1) := by omega
        calc b1.take 8 = (b1.take (8 * (n + 1))).take 8 := by
              rw [List.take_take, min_eq_left h8]
          _ = (b2.take (8 * (n + 1))).take 8 := by rw [h]
          _ = b2.take 8 := by rw [List.take_take, min_eq_left h8]
      have hdrop : (b1.drop 8).take (8 * n) = (b2.drop 8).take (8 * n) := by
        have e1 : (b1.drop 8).take (8 * n) = (b1.take (8 * (n + 1))).drop 8 := by
          rw [List.drop_take]
          congr 1
        have e2 : (b2.drop 8).take (8 * n) = (b2.take (8 * (n + 1))).drop 8 := by
          rw [List.drop_take]
          congr 1
        rw [e1, e2, h]
      rcases ih (b1.drop 8) (b2.drop 8) hdrop with ⟨hn1, hn2⟩ | ⟨xs, hs1, hs2⟩
      · left
        constructor
        · simp only [readInts, readInt64_eq_some b1 hlen, hn1]
        · simp only [readInts, readInt64_eq_some b2 hlen2, hn2]
      · right
        refine ⟨decInt64 (b1.take 8) :: xs, ?_, ?_⟩
        · simp only [readInts, readInt64_eq_some b1 hlen, hs1,
            List.drop_drop]
          rw [show 8 + 8 * n = 8 * (n + 1) by omega]
        · simp only [readInts, readInt64_eq_some b2 hlen2, hs2,
            List.drop_drop, htake8]
          rw [show 8 + 8 * n = 8 * (n + 1) by omega]
    · left
      have hlen2 : b2.length < 8 := by
        have := congrArg List.length h
        simp only [List.length_take] at this
        omega
      constructor
      · simp only [readInts, readInt64_eq_none b1 (by omega)]
      · simp only [readInts, readInt64_eq_none b2 hlen2]

/-- The version header parse depends only on the first 64 bytes. -/
theorem readVersion_congr (b1 b2 : List Nat) (h : b1.take 64 = b2.take 64) :
    (readVersion b1 = none ∧ readVersion b2 = none) ∨
    (∃ v, readVersion b1 = some (v, b1.drop 64) ∧
          readVersion b2 = some (v, b2.drop 64)) := by
  have h64 : b1.take (8 * 8) = b2.take (8 * 8) := h
  rcases readInts_congr 8 b1 b2 h64 with ⟨hn1, hn2⟩ | ⟨xs, hs1, hs2⟩
  · left
    unfold readVersion
    rw [hn1, hn2]
    exact ⟨rfl, rfl⟩
  · unfold readVersion
    rw [hs1, hs2]
    match xs with
    | [] => left; exact ⟨rfl, rfl⟩
    | [a] => left; exact ⟨rfl, rfl⟩
    | [a, b] => left; exact ⟨rfl, rfl⟩
    | [a, b, c] => left; exact ⟨rfl, rfl⟩
    | [a, b, c, d] => left; exact ⟨rfl, rfl⟩
    | [a, b, c, d, e] => left; exact ⟨rfl, rfl⟩
    | [a, b, c, d, e, f] => left; exact ⟨rfl, rfl⟩
    | [a, b, c, d, e, f, g] => left; exact ⟨rfl, rfl⟩
    | [a, b, c, d, e, f, g, hh] => right; exact ⟨⟨a, b, c, d, e, f, g, hh⟩, rfl, rfl⟩
    | a :: b :: c :: d :: e :: f :: g :: hh :: i :: rest => left; exact ⟨rfl, rfl⟩

theorem encXbInput_decomp (x : XbInputData) :
    encXbInput x = inputHeadBytes x ++ encXbState x.xb_state := by
  simp [encXbInput, inputHeadBytes, List.append_assoc]

theorem length_encXbState_set_xsize (s : XbStateData) (a : Int) :
    (encXbState { s with _xsize := a }).length = (encXbState s).length := by
  simp [encXbState, length_encInt64]

theorem fromDigitsLE_digitsLE (n : Nat) : fromDigitsLE (digitsLE n) = n := by
  induction n using Nat.strong_induction_on with
  | _ n ih =>
    rw [digitsLE]
    split
    · simp [fromDigitsLE]
    · rename_i hn
      simp only [fromDigitsLE, ih (n / 10) (by omega)]
      omega

theorem digitsBE_injective (a b : Nat) (h : digitsBE a = digitsBE b) : a = b := by
  unfold digitsBE at h
  have := congrArg List.reverse h
  simp only [List.reverse_reverse] at this
  have ha := fromDigitsLE_digitsLE a
  have hb := fromDigitsLE_digitsLE b
  rw [← ha, ← hb, this]

theorem iturn_engineTurn (step) (s : XbStateData) :
    (engineTurn step s)._i_turn = s._i_turn + 1 := rfl

theorem iturn_iterate (step) (k : Nat) (s : XbStateData) :
    ((engineTurn step)^[k] s)._i_turn = s._i_turn + k := by
  induction k generalizing s with
  | zero => simp
  | succ k ih =>
    rw [Function.iterate_succ_apply, ih, iturn_engineTurn]
    omega

theorem runTo_runTo (step) (t N : Int) (s : XbStateData) (h : t ≤ N) :
    runTo step N (runTo step t s) = runTo step N s := by
  unfold runTo
  rw [iturn_iterate, ← Function.iterate_add_apply]
  congr 1
  omega

theorem valid_iterate (step) (hstep : StepOk step)
    (k : Nat) (s : XbStateData) (h : ValidXbState s)
    (hk : s._i_turn + k < 2 ^ 63) :
    ValidXbState ((engineTurn step)^[k] s) := by
  induction k generalizing s with
  | zero => simpa
  | succ k ih =>
    rw [Function.iterate_succ_apply]
    apply ih
    · obtain ⟨hv, hi, hx, hp, hm⟩ := h
      obtain ⟨hp2, hm2⟩ := hstep (s._particles, s._monitors_metadata) hp hm
      refine ⟨hv, ⟨by unfold I64 at hi; simp [engineTurn]; omega,
        by simp [engineTurn]; omega⟩, ?_, ?_, ?_⟩
      · simpa [engineTurn] using hx
      · simpa [engineTurn] using hp2
      · simpa [engineTurn] using hm2
    · simp [engineTurn]
      omega

theorem valid_runTo (step) (hstep : StepOk step)
    (t N : Int) (s : XbStateData) (h : ValidXbState s)
    (ht : t ≤ N) (hN : N < 2 ^ 63) :
    ValidXbState (runTo step t s) := by
  unfold runTo
  apply valid_iterate step hstep _ s h
  have hi : I64 s._i_turn := h.2.1
  unfold I64 at hi
  omega

/-! ## Support lemmas for the claim theorems -/
theorem length_encInts (xs : List Int) :
    (encInts xs).length = 8 * xs.length := by
  unfold encInts
  induction xs with
  | nil => simp
  | cons x xs ih =>
    simp only [List.map_cons, List.flatten_cons, List.length_append,
      length_encInt64, List.length_cons, ih]
    omega

theorem length_encI64Array (xs : List Int) :
    (encI64Array xs).length = 8 + 8 * xs.length := by
  simp [encI64Array, length_encInt64, length_encInts]

theorem length_jsonBytes (u s : List Nat) (spec : JobSpec) :
    8 < (jsonBytes u s spec).length := by
  simp only [jsonBytes, jsonField, List.length_append, List.length_cons,
    List.length_nil]
  omega

theorem length_encXbInput_ge (x : XbInputData) :
    8 < (encXbInput x).length := by
  unfold encXbInput
  simp only [List.length_append, length_encVersion]
  omega

/-- The bytes of a newly staged filename determine the timestamp. -/
theorem staged_name_inj (u ext : List Nat) (a b : Nat)
    (h : u ++ delim ++ digitsBE a ++ ext = u ++ delim ++ digitsBE b ++ ext) :
    a = b := by
  apply digitsBE_injective
  have h0 : u ++ (delim ++ (digitsBE a ++ ext)) = u ++ (delim ++ (digitsBE b ++ ext)) := by
    simpa [List.append_assoc] using h
  have h1 : delim ++ (digitsBE a ++ ext) = delim ++ (digitsBE b ++ ext) :=
    List.append_cancel_left h0
  have h2 : digitsBE a ++ ext = digitsBE b ++ ext :=
    List.append_cancel_left h1
  exact List.append_cancel_right h2

/-- What one successful `add` does to the manager. -/
theorem add_ok_effect (jm jm2 : JobManager) (spec : JobSpec) (dms : Nat)
    (h : jm.add spec dms = (jm2, .ok ())) :
    jm2._user = jm._user ∧ jm2._study_name = jm._study_name ∧
    jm2._target = jm._target ∧ jm2._submit_file = jm._submit_file ∧
    jm2._submitted = jm._submitted ∧
    jm2.now_ms = jm.now_ms + 1 + dms ∧
    jm2._json_files = jm._json_files ++
      [JobFile.mk (jm._user ++ delim ++ digitsBE (jm.now_ms + 1 + dms) ++ jsonExt)
        (jsonBytes jm._user jm._study_name spec)] ∧
    ∃ x, jm2._bin_files = jm._bin_files ++
      [JobFile.mk (jm._user ++ delim ++ digitsBE (jm.now_ms + 1 + dms) ++ binExt)
        (encXbInput x)] := by
  unfold JobManager.add at h
  by_cases h1 : jm._submitted = true
  · simp [h1] at h
  · simp only [Bool.not_eq_true] at h1
    rw [h1] at h
    simp only [Bool.false_eq_true, if_false] at h
    by_cases h2 : containsDelim spec.job_name = true
    · simp [h2] at h
    · simp only [Bool.not_eq_true] at h2
      rw [h2] at h
      simp only [Bool.false_eq_true, if_false] at h
      cases hmk : mkXbInput spec.num_turns spec.line spec.particles
          spec.checkpoint_every false 0 (-1) with
      | none => rw [hmk] at h; simp at h
      | some x =>
        rw [hmk] at h
        simp only [Prod.mk.injEq] at h
        obtain ⟨hjm, -⟩ := h
        subst hjm
        refine ⟨rfl, rfl, rfl, rfl, by simp [h1], rfl, by simp [List.append_assoc], x,
          by simp [List.append_assoc]⟩

/-- What `addAll` does to the manager: scalar fields are unchanged, each
staged list grows by one well-formed member per job. -/
theorem addAll_invariant (specs : List (JobSpec × Nat)) :
    ∀ jm jm1 : JobManager, jm.addAll specs = some jm1 →
    jm1._user = jm._user ∧ jm1._study_name = jm._study_name ∧
    jm1._target = jm._target ∧ jm1._submit_file = jm._submit_file ∧
    jm1._submitted = jm._submitted ∧
    jm1._json_files.length = jm._json_files.length + specs.length ∧
    jm1._bin_files.length = jm._bin_files.length + specs.length ∧
    (∀ f ∈ jm1._json_files, f ∈ jm._json_files ∨ StagedOk jm._user jsonExt f) ∧
    (∀ f ∈ jm1._bin_files, f ∈ jm._bin_files ∨ StagedOk jm._user binExt f) := by
  induction specs with
  | nil =>
    intro jm jm1 h
    simp only [JobManager.addAll, Option.some.injEq] at h
    subst h
    exact ⟨rfl, rfl, rfl, rfl, rfl, by simp, by simp,
      fun f hf => Or.inl hf, fun f hf => Or.inl hf⟩
  | cons sd rest ih =>
    intro jm jm1 h
    obtain ⟨spec, dms⟩ := sd
    unfold JobManager.addAll at h
    cases hadd : jm.add spec dms with
    | mk jm2 res =>
      rw [hadd] at h
      cases res with
      | error e => simp at h
      | ok u =>
        cases u
        simp only at h
        obtain ⟨hu, hs, ht, hf, hsub, hnow, hjson, x, hbin⟩ :=
          add_ok_effect jm jm2 spec dms hadd
        obtain ⟨iu, is', it, if', isub, ijl, ibl, ijm, ibm⟩ := ih jm2 jm1 h
        refine ⟨iu.trans hu, is'.trans hs, it.trans ht, if'.trans hf,
          isub.trans hsub, ?_, ?_, ?_, ?_⟩
        · rw [ijl, hjson]
          simp
          omega
        · rw [ibl, hbin]
          simp
          omega
        · intro f hf2
          rcases ijm f hf2 with hmem | hok
          · rw [hjson] at hmem
            simp only [List.mem_append, List.mem_singleton] at hmem
            rcases hmem with hmem | rfl
            · exact Or.inl hmem
            · refine Or.inr ⟨⟨digitsBE (jm.now_ms + 1 + dms), ?_⟩,
                length_jsonBytes _ _ _⟩
              simp [List.append_assoc]
          · rw [hu] at hok
            exact Or.inr hok
        · intro f hf2
          rcases ibm f hf2 with hmem | hok
          · rw [hbin] at hmem
            simp only [List.mem_append, List.mem_singleton] at hmem
            rcases hmem with hmem | rfl
            · exact Or.inl hmem
            · refine Or.inr ⟨⟨digitsBE (jm.now_ms + 1 + dms), ?_⟩,
                length_encXbInput_ge x⟩
              simp [List.append_assoc]
          · rw [hu] at hok
            exact Or.inr hok

theorem length_encXbInput_split (x : XbInputData) :
    (encXbInput x).length =
      (inputHeadBytes x).length + (encXbState x.xb_state).length := by
  rw [encXbInput_decomp]
  simp

theorem inputHeadBytes_set_xsize (x : XbInputData) (a : Int) :
    inputHeadBytes
      { x with xb_state := { x.xb_state with _xsize := a } } =
    inputHeadBytes x := rfl

theorem length_encXbState_eq (s : XbStateData) :
    (encXbState s).length = 80 + (encParticles s._particles).length +
      (encLineMeta s._monitors_metadata).length := by
  simp only [encXbState, List.length_append, length_encVersion, length_encInt64]

theorem finalizeStateSize_xsize (x : XbInputData) :
    (finalizeStateSize x).xb_state._xsize =
      (((encXbState (finalizeStateSize x).xb_state).length : Nat) : Int) := by
  show (((encXbInput x).length -
      ((encXbInput x).length - (encXbState x.xb_state).length) : Nat) : Int) = _
  have hp : (finalizeStateSize x).xb_state._particles = x.xb_state._particles := rfl
  have hm : (finalizeStateSize x).xb_state._monitors_metadata =
      x.xb_state._monitors_metadata := rfl
  have hA := length_encXbInput_split x
  simp only [length_encXbState_eq] at hA ⊢
  rw [hp, hm]
  omega

theorem finalizeStateSize_xsize_sub (x : XbInputData) :
    (finalizeStateSize x).xb_state._xsize =
      (((encXbInput (finalizeStateSize x)).length -
        (inputHeadBytes (finalizeStateSize x)).length : Nat) : Int) := by
  rw [finalizeStateSize_xsize]
  have h2 := length_encXbInput_split (finalizeStateSize x)
  omega

theorem finalizeStateSize_decomp (x : XbInputData) :
    encXbInput (finalizeStateSize x) =
      inputHeadBytes x ++ encXbState (finalizeStateSize x).xb_state := by
  rw [encXbInput_decomp]
  congr 1

theorem finalizeStateSize_slice (x : XbInputData) :
    (encXbInput (finalizeStateSize x)).drop
      ((encXbInput (finalizeStateSize x)).length -
        (encXbState (finalizeStateSize x).xb_state).length) =
    encXbState (finalizeStateSize x).xb_state := by
  rw [finalizeStateSize_decomp]
  have hl : (inputHeadBytes x ++ encXbState (finalizeStateSize x).xb_state).length -
      (encXbState (finalizeStateSize x).xb_state).length =
      (inputHeadBytes x).length := by
    simp
  rw [hl]
  exact List.drop_left _ _

/-- Reduction of `decodeXbInput` once the version parse is known. -/
theorem decodeXbInput_version_some (bs : List Nat) (v : XbVersionData)
    (r : List Nat) (h : readVersion bs = some (v, r)) :
    decodeXbInput bs =
      if v = xbCurrentVersion then
        match readXbInputBody v r with
        | some (x, _) => .ok x
        | none => .error .truncated
      else .error (.versionMismatch xbCurrentVersion v) := by
  unfold decodeXbInput
  rw [h]

/-- Reduction of `decodeXbState` once the version parse is known. -/
theorem decodeXbState_version_some (bs : List Nat) (v : XbVersionData)
    (r : List Nat) (h : readVersion bs = some (v, r)) :
    decodeXbState bs =
      if v = xbCurrentVersion then
        match readXbStateBody v r with
        | some (s, _) => .ok s
        | none => .error .truncated
      else .error (.versionMismatch xbCurrentVersion v) := by
  unfold decodeXbState
  rw [h]

/-! ## Claim theorems -/
/-- C1: For every valid `XbInput` value, writing it with `to_binary` and
reading back with `from_binary` reproduces every scalar field and every
array element exactly; and every byte buffer produced by `to_binary`
decodes and re-encodes to itself byte-for-byte. -/
theorem xbinput_roundtrip_law :
    (∀ x : XbInputData, ValidXbInput x → decodeXbInput (encXbInput x) = .ok x) ∧
    (∀ (b : List Nat) (x : XbInputData), ValidXbInput x → b = encXbInput x →
      Except.map encXbInput (decodeXbInput b) = .ok b) := by
  constructor
  · exact fun x h => decodeXbInput_encXbInput x h
  · intro b x h hb
    subst hb
    rw [decodeXbInput_encXbInput x h]
    rfl

/-- Witness for C1 at the concrete example input. -/
theorem xbinput_roundtrip_law_witness :
    ValidXbInput exInput ∧
    decodeXbInput (encXbInput exInput) = .ok exInput ∧
    Except.map encXbInput (decodeXbInput (encXbInput exInput)) =
      .ok (encXbInput exInput) :=
  ⟨by decide, xbinput_roundtrip_law.1 exInput (by decide),
    xbinput_roundtrip_law.2 (encXbInput exInput) exInput (by decide) rfl⟩

/-- C2: For every byte buffer whose version header is not the running
schema's fingerprint, both decoders read the version header first and
abort with the version-mismatch error; the result of decoding depends
only on the first 64 bytes (the version header), so no further byte is
interpreted and no other version is accepted. -/
theorem version_gate_rejects :
    ∀ (b : List Nat) (v : XbVersionData) (r : List Nat),
      readVersion b = some (v, r) → v ≠ xbCurrentVersion →
      decodeXbInput b = .error (.versionMismatch xbCurrentVersion v) ∧
      decodeXbState b = .error (.versionMismatch xbCurrentVersion v) ∧
      ∀ b2 : List Nat, b.take 64 = b2.take 64 →
        decodeXbInput b2 = decodeXbInput b ∧
        decodeXbState b2 = decodeXbState b := by
  intro b v r hv hne
  have hin : decodeXbInput b = .error (.versionMismatch xbCurrentVersion v) := by
    rw [decodeXbInput_version_some b v r hv, if_neg hne]
  have hst : decodeXbState b = .error (.versionMismatch xbCurrentVersion v) := by
    rw [decodeXbState_version_some b v r hv, if_neg hne]
  refine ⟨hin, hst, ?_⟩
  intro b2 htake
  rcases readVersion_congr b b2 htake with ⟨hn1, _⟩ | ⟨v2, hs1, hs2⟩
  · rw [hv] at hn1
    cases hn1
  · rw [hv] at hs1
    have hpair : v = v2 ∧ r = b.drop 64 := by
      have h1 : (v, r) = (v2, b.drop 64) := by
        injection hs1
      simpa [Prod.mk.injEq] using h1
    obtain ⟨hv2, -⟩ := hpair
    subst hv2
    constructor
    · rw [hin, decodeXbInput_version_some b2 v (b2.drop 64) hs2, if_neg hne]
    · rw [hst, decodeXbState_version_some b2 v (b2.drop 64) hs2, if_neg hne]

/-- Witness for C2 at a concrete 64-byte buffer carrying a stale
fingerprint. -/
theorem version_gate_rejects_witness :
    readVersion (encVersion badVersion) = some (badVersion, []) ∧
    badVersion ≠ xbCurrentVersion ∧
    decodeXbInput (encVersion badVersion) =
      .error (.versionMismatch xbCurrentVersion badVersion) ∧
    decodeXbState (encVersion badVersion) =
      .error (.versionMismatch xbCurrentVersion badVersion) :=
  have h1 : readVersion (encVersion badVersion) = some (badVersion, []) := by
    have := readVersion_append badVersion [] (by decide)
    simpa using this
  have h2 : badVersion ≠ xbCurrentVersion := by decide
  ⟨h1, h2, (version_gate_rejects (encVersion badVersion) badVersion [] h1 h2).1,
    (version_gate_rejects (encVersion badVersion) badVersion [] h1 h2).2.1⟩

/-- C3: Running the engine uninterrupted to completion and running it
with any sequence of interruption-then-resume cycles at checkpoint
boundaries produce byte-identical terminal output buffers; each resume
continues from the checkpoint's embedded turn counter. -/
theorem checkpoint_resume_deterministic
    (step : ParticlesData × LineMeta → ParticlesData × LineMeta)
    (num_turns : Int) (s0 : XbStateData) (cps : List Int)
    (hstep : StepOk step) (h0 : ValidXbState s0) (hN : num_turns < 2 ^ 63)
    (hcps : ∀ t ∈ cps, t ≤ num_turns) :
    runInterrupted step num_turns s0 cps =
      .ok (runUninterrupted step num_turns s0) := by
  induction cps generalizing s0 with
  | nil => rfl
  | cons t ts ih =>
    simp only [runInterrupted]
    have hv := valid_runTo step hstep t num_turns s0 h0 (hcps t (by simp)) hN
    rw [decodeXbState_encXbState _ hv]
    show runInterrupted step num_turns (runTo step t s0) ts = _
    rw [ih (runTo step t s0) hv (fun u hu => hcps u (by simp [hu]))]
    unfold runUninterrupted
    rw [runTo_runTo step t num_turns s0 (hcps t (by simp))]

/-- Witness for C3: a three-turn run interrupted at turns 1 and 2. -/
theorem checkpoint_resume_deterministic_witness :
    runInterrupted (fun pm => pm) 3 exState [1, 2] =
      .ok (runUninterrupted (fun pm => pm) 3 exState) :=
  checkpoint_resume_deterministic (fun pm => pm) 3 exState [1, 2]
    (fun _ hp hm => ⟨hp, hm⟩) (by decide) (by decide) (by decide)

/-- C4: After a successful `submit()`, any `add()` fails with the
already-submitted error and any second `submit()` fails identically;
the failing call returns the manager unchanged (staged files, submitted
flag and target directory included). -/
theorem add_after_submit_fails (jm jm1 : JobManager) (ar : Archive)
    (spec : JobSpec) (dms : Nat) (h : jm.submit = (jm1, .ok ar)) :
    jm1._submitted = true ∧
    jm1.add spec dms = (jm1, .error .alreadySubmitted) ∧
    jm1.submit = (jm1, .error .alreadySubmitted) := by
  unfold JobManager.submit at h
  by_cases hs : jm._submitted = true
  · simp [hs] at h
  · simp only [Bool.not_eq_true] at hs
    rw [hs] at h
    simp only [Bool.false_eq_true, if_false, Prod.mk.injEq] at h
    obtain ⟨h1, -⟩ := h
    subst h1
    refine ⟨rfl, ?_, ?_⟩
    · unfold JobManager.add
      simp
    · unfold JobManager.submit
      simp

/-- Witness for C4 on the concrete submitted example manager. -/
theorem add_after_submit_fails_witness :
    exJM1.submit = (exJM2, .ok exArch) ∧
    exJM2.add exSpec 0 = (exJM2, .error .alreadySubmitted) ∧
    exJM2.submit = (exJM2, .error .alreadySubmitted) :=
  have h : exJM1.submit = (exJM2, .ok exArch) := rfl
  ⟨h, (add_after_submit_fails exJM1 exJM2 exArch exSpec 0 h).2.1,
    (add_after_submit_fails exJM1 exJM2 exArch exSpec 0 h).2.2⟩

/-- C5: A manager with `N` jobs added and then submitted produces
exactly one archive, in the target directory, named
`{user}__{study}__{timestamp}.tar.gz`, with exactly `2N` members —
`N` metadata `.json` members and `N` binary `.bin` members — each
larger than 8 bytes and each named with the submitter identifier
followed by the delimiter as its leading bytes. -/
theorem submit_archive_contents (user study target : List Nat) (ts : Nat)
    (jm0 jm1 jm2 : JobManager) (specs : List (JobSpec × Nat)) (ar : Archive)
    (h0 : mkJobManager user study target ts = some jm0)
    (h1 : jm0.addAll specs = some jm1)
    (h2 : jm1.submit = (jm2, .ok ar)) :
    ar.dir = target ∧
    ar.name = user ++ delim ++ study ++ delim ++ digitsBE ts ++ tarExt ∧
    ar.members.length = 2 * specs.length ∧
    (∃ js bs, ar.members = js ++ bs ∧
      js.length = specs.length ∧ bs.length = specs.length ∧
      (∀ m ∈ js, StagedOk user jsonExt m) ∧
      (∀ m ∈ bs, StagedOk user binExt m)) ∧
    ∀ m ∈ ar.members, (∃ t, m.name = user ++ delim ++ t) ∧
      8 < m.content.length := by
  unfold mkJobManager at h0
  by_cases hd : containsDelim study = true
  · simp [hd] at h0
  · simp only [Bool.not_eq_true] at hd
    rw [hd] at h0
    simp only [Bool.false_eq_true, if_false, Option.some.injEq] at h0
    obtain ⟨iu, is', it, if', isub, ijl, ibl, ijm, ibm⟩ :=
      addAll_invariant specs jm0 jm1 h1
    unfold JobManager.submit at h2
    have hsub1 : jm1._submitted = false := by
      rw [isub, ← h0]
    rw [hsub1] at h2
    simp only [Bool.false_eq_true, if_false, Prod.mk.injEq] at h2
    obtain ⟨-, har⟩ := h2
    have harr :
        ar = { dir := jm1._target, name := jm1._submit_file,
               members := jm1._json_files ++ jm1._bin_files } := by
      injection har with h3
      exact h3.symm
    subst harr
    have hju : jm1._json_files.length = specs.length := by
      rw [ijl, ← h0]
      simp
    have hbu : jm1._bin_files.length = specs.length := by
      rw [ibl, ← h0]
      simp
    have hjm2 : ∀ f ∈ jm1._json_files, StagedOk user jsonExt f := by
      intro f hf
      rcases ijm f hf with hmem | hok
      · rw [← h0] at hmem
        simp at hmem
      · rw [← h0] at hok
        exact hok
    have hbm2 : ∀ f ∈ jm1._bin_files, StagedOk user binExt f := by
      intro f hf
      rcases ibm f hf with hmem | hok
      · rw [← h0] at hmem
        simp at hmem
      · rw [← h0] at hok
        exact hok
    refine ⟨?_, ?_, ?_, ?_, ?_⟩
    · show jm1._target = target
      rw [it, ← h0]
    · show jm1._submit_file = _
      rw [if', ← h0]
    · show (jm1._json_files ++ jm1._bin_files).length = _
      simp only [List.length_append, hju, hbu]
      omega
    · exact ⟨jm1._json_files, jm1._bin_files, rfl, hju, hbu, hjm2, hbm2⟩
    · intro m hm
      have hm2 : m ∈ jm1._json_files ++ jm1._bin_files := hm
      simp only [List.mem_append] at hm2
      rcases hm2 with hm | hm
      · obtain ⟨⟨t, ht⟩, hlen⟩ := hjm2 m hm
        exact ⟨⟨t ++ jsonExt, by rw [ht]; simp [List.append_assoc]⟩, hlen⟩
      · obtain ⟨⟨t, ht⟩, hlen⟩ := hbm2 m hm
        exact ⟨⟨t ++ binExt, by rw [ht]; simp [List.append_assoc]⟩, hlen⟩

/-- Witness for C5 on the concrete three-job example. -/
theorem submit_archive_contents_witness :
    mkJobManager exUser exStudy exTarget 7 = some exJM0 ∧
    exJM0.addAll exSpecs = some exJM1 ∧
    exJM1.submit = (exJM2, .ok exArch) ∧
    exArch.members.length = 2 * exSpecs.length ∧
    exArch.name = exUser ++ delim ++ exStudy ++ delim ++ digitsBE 7 ++ tarExt :=
  have h0 : mkJobManager exUser exStudy exTarget 7 = some exJM0 := rfl
  have h1 : exJM0.addAll exSpecs = some exJM1 := rfl
  have h2 : exJM1.submit = (exJM2, .ok exArch) := rfl
  ⟨h0, h1, h2,
    (submit_archive_contents exUser exStudy exTarget 7 exJM0 exJM1 exJM2
      exSpecs exArch h0 h1 h2).2.2.1,
    (submit_archive_contents exUser exStudy exTarget 7 exJM0 exJM1 exJM2
      exSpecs exArch h0 h1 h2).2.1⟩

/-- C9: Two consecutive successful `add()` calls stage two json files
and two binary files whose names are distinct, because the second call
reads a strictly larger enforced-spacing timestamp; no later `add`
overwrites an earlier staged file. -/
theorem staged_filenames_distinct (jm jm1 jm2 : JobManager)
    (s1 s2 : JobSpec) (d1 d2 : Nat)
    (h1 : jm.add s1 d1 = (jm1, .ok ()))
    (h2 : jm1.add s2 d2 = (jm2, .ok ())) :
    ∃ f1 f2 g1 g2 : JobFile,
      jm1._json_files = jm._json_files ++ [f1] ∧
      jm2._json_files = jm1._json_files ++ [f2] ∧
      jm1._bin_files = jm._bin_files ++ [g1] ∧
      jm2._bin_files = jm1._bin_files ++ [g2] ∧
      f1.name ≠ f2.name ∧ g1.name ≠ g2.name := by
  obtain ⟨hu1, -, -, -, -, hn1, hj1, x1, hb1⟩ := add_ok_effect _ _ _ _ h1
  obtain ⟨hu2, -, -, -, -, hn2, hj2, x2, hb2⟩ := add_ok_effect _ _ _ _ h2
  rw [hu1] at hj2 hb2
  rw [hn1] at hj2 hb2
  refine ⟨_, _, _, _, hj1, hj2, hb1, hb2, ?_, ?_⟩
  · intro hne
    simp only at hne
    have := staged_name_inj jm._user jsonExt _ _ hne
    omega
  · intro hne
    simp only at hne
    have := staged_name_inj jm._user binExt _ _ hne
    omega

/-- Witness for C9 on two concrete back-to-back adds. -/
theorem staged_filenames_distinct_witness :
    exJM0.add exSpec 0 = (exJMa, .ok ()) ∧
    exJMa.add exSpec 0 = (exJMb, .ok ()) ∧
    ∃ f1 f2 g1 g2 : JobFile,
      exJMa._json_files = exJM0._json_files ++ [f1] ∧
      exJMb._json_files = exJMa._json_files ++ [f2] ∧
      exJMa._bin_files = exJM0._bin_files ++ [g1] ∧
      exJMb._bin_files = exJMa._bin_files ++ [g2] ∧
      f1.name ≠ f2.name ∧ g1.name ≠ g2.name :=
  have h1 : exJM0.add exSpec 0 = (exJMa, .ok ()) := rfl
  have h2 : exJMa.add exSpec 0 = (exJMb, .ok ()) := rfl
  ⟨h1, h2, staged_filenames_distinct exJM0 exJMa exJMb exSpec exSpec 0 0 h1 h2⟩

/-- C10: `submit()` on a manager with zero staged jobs does not fail:
it produces an archive with zero members in the target directory under
the fixed archive name and sets the submitted flag. -/
theorem submit_zero_jobs_ok (jm : JobManager)
    (hs : jm._submitted = false)
    (hj : jm._json_files = []) (hb : jm._bin_files = []) :
    jm.submit = ({ jm with _submitted := true },
      .ok { dir := jm._target, name := jm._submit_file, members := [] }) := by
  unfold JobManager.submit
  rw [hs]
  simp [hj, hb]

/-- Witness for C10 on the freshly constructed example manager. -/
theorem submit_zero_jobs_ok_witness :
    exJM0._submitted = false ∧ exJM0._json_files = [] ∧
    exJM0._bin_files = [] ∧
    exJM0.submit = ({ exJM0 with _submitted := true },
      .ok { dir := exJM0._target, name := exJM0._submit_file, members := [] }) :=
  ⟨rfl, rfl, rfl, submit_zero_jobs_ok exJM0 rfl rfl rfl⟩

/-- Counterexample to C6 as stated: with `num_elements = 2`,
`ele_start = 2` and the defaulted `ele_stop = -1`, construction
succeeds, the replaced stop equals `ele_start`, yet no extra turn is
added (the `-1` branch never compensates for wraparound). -/
theorem range_claim_counterexample :
    init_ele_range 5 2 2 (-1) = some (5, 2, 2) ∧
    ¬ rangeClaimAt 5 2 2 (-1) := by
  constructor
  · decide
  · intro h
    exact absurd (h 5 2 2 (by decide)) (by decide)

/-- C6 amended: the clamped start always satisfies
`0 <= ele_start <= num_elements`; when the caller supplies
`ele_stop = -1` it is replaced by `num_elements`, the invariant
`0 <= ele_start <= ele_stop <= num_elements` holds and the turn count
is unchanged (even when `ele_start = num_elements`); when the caller
supplies an explicit `ele_stop` with `ele_stop <= ele_start`,
construction succeeds and `num_turns` is incremented by exactly one;
otherwise the invariant holds with the turn count unchanged. -/
theorem xbinput_range_invariant
    (num_turns num_elements ele_start0 ele_stop0 nt s e : Int)
    (h : init_ele_range num_turns num_elements ele_start0 ele_stop0 =
      some (nt, s, e)) :
    s = max 0 ele_start0 ∧ 0 ≤ s ∧ s ≤ num_elements ∧ 0 < num_turns ∧
    (ele_stop0 = -1 → nt = num_turns ∧ e = num_elements ∧ s ≤ e) ∧
    (ele_stop0 ≠ -1 →
      0 ≤ e ∧ e ≤ num_elements ∧ e = ele_stop0 ∧
      (ele_stop0 ≤ s → nt = num_turns + 1) ∧
      (s < ele_stop0 → nt = num_turns ∧ s ≤ e)) := by
  unfold init_ele_range at h
  by_cases hA : 0 ≤ max 0 ele_start0 ∧ max 0 ele_start0 ≤ num_elements
  case neg => rw [if_neg hA] at h; cases h
  rw [if_pos hA] at h
  by_cases hB : 0 < num_turns
  case neg => rw [if_neg hB] at h; cases h
  rw [if_pos hB] at h
  by_cases hC : ele_stop0 = -1
  · rw [if_pos hC] at h
    simp only [Option.some.injEq, Prod.mk.injEq] at h
    obtain ⟨hnt, hs, he⟩ := h
    subst hnt
    subst hs
    subst he
    exact ⟨rfl, hA.1, hA.2, hB, fun _ => ⟨rfl, rfl, hA.2⟩,
      fun hne => absurd hC hne⟩
  · rw [if_neg hC] at h
    by_cases hD : 0 ≤ ele_stop0 ∧ ele_stop0 ≤ num_elements
    case neg => rw [if_neg hD] at h; cases h
    rw [if_pos hD] at h
    by_cases hE : ele_stop0 ≤ max 0 ele_start0
    · rw [if_pos hE] at h
      simp only [Option.some.injEq, Prod.mk.injEq] at h
      obtain ⟨hnt, hs, he⟩ := h
      subst hnt
      subst hs
      subst he
      exact ⟨rfl, hA.1, hA.2, hB, fun hc => absurd hc hC,
        fun _ => ⟨hD.1, hD.2, rfl, fun _ => rfl, fun hc => absurd hE (by omega)⟩⟩
    · rw [if_neg hE] at h
      simp only [Option.some.injEq, Prod.mk.injEq] at h
      obtain ⟨hnt, hs, he⟩ := h
      subst hnt
      subst hs
      subst he
      exact ⟨rfl, hA.1, hA.2, hB, fun hc => absurd hc hC,
        fun _ => ⟨hD.1, hD.2, rfl, fun hc => absurd hc hE,
          fun _ => ⟨rfl, by omega⟩⟩⟩

/-- Witness for the amended C6 at a concrete explicit-stop wraparound
call. -/
theorem xbinput_range_invariant_witness :
    init_ele_range 5 4 3 2 = some (6, 3, 2) ∧
    (6 : Int) = 5 + 1 ∧ (0 : Int) ≤ 3 ∧ (3 : Int) ≤ 4 :=
  have h : init_ele_range 5 4 3 2 = some (6, 3, 2) := by decide
  have hr := xbinput_range_invariant 5 4 3 2 6 3 2 h
  ⟨h, ((hr.2.2.2.2.2 (by decide)).2.2.2.1 (by decide)), hr.2.1, hr.2.2.1⟩

/-- Counterexample to C7 as stated: `XbState.to_binary` performs no
shrink, so a state buffer with 2 free bytes out of 10 is written as all
10 bytes, padding included. -/
theorem shrink_claim_counterexample : ¬ shrinkClaim := by
  intro h
  have hc := (h (XBuffer.mk [0, 0, 0, 0, 0, 0, 0, 0, 0, 0] 2) (by decide)).2
  exact absurd hc (by decide)

/-- C7 amended: `XbInput.to_binary` shrinks first and therefore writes
exactly the occupied bytes, the shrunk buffer having zero free
capacity; `XbState.to_binary` writes the whole arena — occupied bytes
plus any free-capacity padding — without shrinking. -/
theorem to_binary_shrinks (b : XBuffer) (h : b.free ≤ b.capacity) :
    (xbinput_to_binary b).length = b.occupied ∧
    (_shrink b).get_free = 0 ∧
    (xbstate_to_binary b).length = b.capacity := by
  unfold XBuffer.capacity at h
  refine ⟨?_, ?_, ?_⟩
  · unfold xbinput_to_binary _shrink XBuffer.occupied XBuffer.get_free
      XBuffer.capacity
    by_cases h1 : 0 < b.free
    · rw [if_pos h1]
      simp only [List.length_take]
      omega
    · rw [if_neg h1]
      omega
  · unfold XBuffer.get_free _shrink XBuffer.get_free XBuffer.capacity
    by_cases h1 : 0 < b.free
    · rw [if_pos h1]
    · rw [if_neg h1]
      omega
  · rfl

/-- Witness for the amended C7 at a concrete buffer with free
capacity. -/
theorem to_binary_shrinks_witness :
    (xbinput_to_binary (XBuffer.mk [1, 2, 3, 4] 1)).length = 3 ∧
    (_shrink (XBuffer.mk [1, 2, 3, 4] 1)).get_free = 0 ∧
    (xbstate_to_binary (XBuffer.mk [1, 2, 3, 4] 1)).length = 4 :=
  to_binary_shrinks (XBuffer.mk [1, 2, 3, 4] 1) (by decide)

/-- C8: For every constructed `XbInput`, the embedded state is the last
region of the buffer: the recorded `_xsize` equals
`buffer_capacity - state_offset`, which is the state's own encoded
size, and slicing the serialized input at
`buffer_length - state_size` yields exactly the state's bytes without
re-parsing. -/
theorem state_block_is_last (num_turns : Int) (line : LineMeta)
    (particles : ParticlesData) (checkpoint_every : Int) (sn : Bool)
    (es eo : Int) (x : XbInputData)
    (h : mkXbInput num_turns line particles checkpoint_every sn es eo =
      some x) :
    x.xb_state._xsize =
      (((encXbInput x).length - (inputHeadBytes x).length : Nat) : Int) ∧
    x.xb_state._xsize = (((encXbState x.xb_state).length : Nat) : Int) ∧
    (encXbInput x).drop
        ((encXbInput x).length - (encXbState x.xb_state).length) =
      encXbState x.xb_state := by
  unfold mkXbInput at h
  cases hi : init_ele_range num_turns (line.elements.length : Int) es eo with
  | none =>
    rw [hi] at h
    simp at h
  | some v =>
    obtain ⟨nt, s, e⟩ := v
    rw [hi] at h
    simp only [Option.some.injEq] at h
    subst h
    exact ⟨finalizeStateSize_xsize_sub _, finalizeStateSize_xsize _,
      finalizeStateSize_slice _⟩

/-- Witness for C8 on a concretely constructed input. -/
theorem state_block_is_last_witness :
    mkXbInput 5 exLine exParticles (-1) true 0 (-1) = some exInput2 ∧
    exInput2.xb_state._xsize =
      (((encXbState exInput2.xb_state).length : Nat) : Int) ∧
    (encXbInput exInput2).drop
        ((encXbInput exInput2).length - (encXbState exInput2.xb_state).length) =
      encXbState exInput2.xb_state :=
  have h : mkXbInput 5 exLine exParticles (-1) true 0 (-1) = some exInput2 := rfl
  ⟨h, (state_block_is_last 5 exLine exParticles (-1) true 0 (-1) exInput2 h).2.1,
    (state_block_is_last 5 exLine exParticles (-1) true 0 (-1) exInput2 h).2.2⟩

end Xboinc
